import Mathlib

/-!
Verification of the hybrid-retrieval core of the charlie-munger-brain
repository: a shallow embedding, in Lean 4, of the chunking, vector-search
ranking, knowledge-graph and hybrid-query logic of `src/vector_store.py`,
`src/graph_builder.py` and `src/query_engine.py`, together with theorems
settling the specification's claims about it.

Modelling conventions:
- Python strings are Lean `String`s (both are sequences of unicode code
  points; Python `len`/slicing by code point corresponds to `String.length`,
  `String.take`, `String.takeRight`).
- Floating-point similarity scores are modelled as rationals (`ℚ`): every
  claim settled here concerns ordering, counting and data flow, never
  floating-point rounding itself.
- The external embedding backend (`_embed_texts`) is an opaque function, so
  the similarity vector a query induces is a universally quantified input.
- `numpy.argsort` guarantees an ascending sort of the scores; its default
  sort fixes no tie order in general (the documented default algorithm is
  not stable). The ranking here is the ascending sort by `(score, index)`:
  on arbitrary inputs only its score order is relied upon, while its tie
  order is relied upon only on small arrays — below numpy's small-sort
  threshold the default sort is an insertion sort, which is deterministic
  and stable, so the tie order is exact there.
- `networkx.DiGraph` bookkeeping (`add_node`, `add_edge`,
  `all_simple_paths`, predecessor/successor iteration) is modelled from its
  documented semantics: node and edge sets in insertion order, `add_edge`
  inserting missing endpoints as nodes, `all_simple_paths G s t cutoff`
  enumerating the simple paths from `s` to `t` with at most `cutoff` edges
  and raising `NodeNotFound` (here: the caller's `except` branch, giving
  `[]`) when `s` or `t` is not a node of `G`.
-/

set_option maxHeartbeats 1000000

namespace CharlieMungerBrain

/-- Text chunk held by the vector store (`TextChunk` dataclass in
`src/vector_store.py`): a span of text together with its chapter label and
its sequence index in the store. -/
structure TextChunk where
  text : String
  chapter : String
  index : Nat
deriving Repr, DecidableEq, Inhabited

/-- Python string slice `s[-n:]` by code points (for `n > 0`): the last `n`
characters of `s` (all of `s` when `n ≥ len(s)`). -/
def strTakeRight (s : String) (n : Nat) : String := ⟨s.data.drop (s.data.length - n)⟩

/-- Python `s.strip()` over code points (whitespace per `Char.isWhitespace`;
the corpus only exercises ASCII and CJK characters). Defined directly on the
character list so that it is kernel-computable. -/
def strTrim (s : String) : String :=
  ⟨((s.data.dropWhile Char.isWhitespace).reverse.dropWhile Char.isWhitespace).reverse⟩

/-- Python string slice `s[:n]` by code points. -/
def strTake (s : String) (n : Nat) : String := ⟨s.data.take n⟩

/-- Python `s.lower()` (modelled per-character; the identity on the CJK
characters the corpus exercises). -/
def strLower (s : String) : String := ⟨s.data.map Char.toLower⟩

/-- Python substring test `needle in hay` over code points: contiguous
occurrence anywhere (an empty needle always occurs). -/
def substrOccurs : List Char → List Char → Bool
  | n, [] => n.isEmpty
  | n, h :: t => n.isPrefixOf (h :: t) || substrOccurs n t

/-- Scanner for Python `s.split(sep)` with a non-empty separator: leftmost,
non-overlapping matches cut the string; adjacent or boundary matches yield
empty parts. `fuel` starts at the length of the scanned list and only
decreases. -/
def splitOnGo (sep : List Char) : Nat → List Char → List Char → List (List Char)
  | _, acc, [] => [acc.reverse]
  | 0, acc, l => [acc.reverse ++ l]
  | Nat.succ fuel, acc, c :: rest =>
    if sep.isPrefixOf (c :: rest) then
      acc.reverse :: splitOnGo sep fuel [] ((c :: rest).drop sep.length)
    else splitOnGo sep fuel (c :: acc) rest

/-- Python `s.split(sep)` (non-empty `sep`), by code points. -/
def strSplitOn (s sep : String) : List String :=
  (splitOnGo sep.data s.data.length [] s.data).map (fun l => (⟨l⟩ : String))

/-- Scanner for `re.sub(r'<[^>]+>', '', s)`: at `<`, when the next `>`
appears after at least one intervening non-`>` character, the whole match is
removed and scanning resumes after it; otherwise the character is kept.
`fuel` starts at the length of the scanned list. -/
def stripTagsGo : Nat → List Char → List Char
  | _, [] => []
  | 0, l => l
  | Nat.succ fuel, c :: rest =>
    if c = '<' then
      match rest.findIdx? (fun x => x = '>') with
      | some k => if 1 ≤ k then stripTagsGo fuel (rest.drop (k + 1)) else c :: stripTagsGo fuel rest
      | none => c :: stripTagsGo fuel rest
    else c :: stripTagsGo fuel rest

/-- HTML-tag removal `re.sub(r'<[^>]+>', '', s)` used on history messages. -/
def stripTags (s : String) : String := ⟨stripTagsGo s.data.length s.data⟩

namespace VectorStore

/-- Score of chunk `i` in a similarity vector, i.e. `similarities[idx]` in
`VectorStore.search`; out-of-range indices (never reached on a built index)
default to `0`. -/
def simKey (scores : List ℚ) (i : Nat) : ℚ := scores.getD i 0

/-- Ascending order on chunk indices by `(score, index)`, the reference
ranking for `np.argsort(similarities)` in `VectorStore.search`. numpy only
guarantees the score order: its default sort is not stable, so the
position tie-break fixed here is *not* a property of the program on
arbitrary inputs, and no theorem about arbitrary inputs relies on it. It is
exact on small arrays (below numpy's small-sort threshold the default sort
is an insertion sort, deterministic and stable), which covers every
concrete input used in this file. -/
def argsortRel (scores : List ℚ) (i j : Nat) : Prop :=
  simKey scores i < simKey scores j ∨ (simKey scores i = simKey scores j ∧ i ≤ j)

instance (scores : List ℚ) : DecidableRel (argsortRel scores) := fun _ _ =>
  inferInstanceAs (Decidable (_ ∨ _))

instance (scores : List ℚ) : IsTotal Nat (argsortRel scores) where
  total i j := by
    unfold argsortRel
    rcases lt_trichotomy (simKey scores i) (simKey scores j) with h | h | h
    · exact Or.inl (Or.inl h)
    · rcases Nat.le_total i j with hij | hij
      · exact Or.inl (Or.inr ⟨h, hij⟩)
      · exact Or.inr (Or.inr ⟨h.symm, hij⟩)
    · exact Or.inr (Or.inl h)

instance (scores : List ℚ) : IsTrans Nat (argsortRel scores) where
  trans i j k hij hjk := by
    unfold argsortRel at *
    rcases hij with h1 | ⟨h1, h1'⟩
    · rcases hjk with h2 | ⟨h2, _⟩
      · exact Or.inl (h1.trans h2)
      · exact Or.inl (h2 ▸ h1)
    · rcases hjk with h2 | ⟨h2, h2'⟩
      · exact Or.inl (h1 ▸ h2)
      · exact Or.inr ⟨h1.trans h2, h1'.trans h2'⟩

/-- Ranking of chunk indices produced by
`np.argsort(similarities)[::-1][:top_k]` in `VectorStore.search`: ascending
argsort, reversed, truncated to the first `top_k` entries. Its tie order
among equal scores comes from `argsortRel` and carries the caveat stated
there. -/
def searchOrder (scores : List ℚ) (top_k : Nat) : List Nat :=
  ((List.insertionSort (argsortRel scores) (List.range scores.length)).reverse).take top_k

/-- Model of `VectorStore.search` (src/vector_store.py): on an unbuilt or
empty index (`self.embeddings is None or len(self.chunks) == 0`) it returns
`[]`; otherwise it returns the `(chunk, score)` pairs in ranked order.
`chunks` is the stored chunk list and `scores` the similarity vector the
query induces against the stored embedding matrix. -/
def search (chunks : List TextChunk) (scores : List ℚ) (top_k : Nat) :
    List (TextChunk × ℚ) :=
  if chunks.isEmpty then []
  else (searchOrder scores top_k).map (fun i => (chunks.getD i default, simKey scores i))

/-- Concrete two-chunk store with identical similarity scores used to settle
the tie-breaking claim. -/
def tieChunks : List TextChunk := [⟨"c0", "ch", 0⟩, ⟨"c1", "ch", 1⟩]

/-- Similarity vector with a tie between the two chunks. -/
def tieScores : List ℚ := [1, 1]

end VectorStore

/-- Directed edge of the modelled `networkx.DiGraph`, carrying the edge
attributes `KnowledgeGraph.add_relationship` (src/graph_builder.py) stores on
it (`relation_type`, `description`, `weight`). -/
structure Edge where
  src : String
  tgt : String
  relation_type : String
  description : String
  weight : ℚ
deriving Repr, DecidableEq, Inhabited

/-- Model of a `networkx.DiGraph`: its node list and edge list, both in
insertion order (networkx preserves insertion order of nodes and adjacency).
Node attributes are not modelled — no claim reads them. Modelled from the
documented networkx semantics, since the library itself is an external
dependency of the repository. -/
structure NxDiGraph where
  nodes : List String
  edges : List Edge
deriving Repr, DecidableEq, Inhabited

namespace NxDiGraph

/-- Fresh `nx.DiGraph()`. -/
def empty : NxDiGraph := ⟨[], []⟩

/-- Model of `G.add_node(n, **attrs)`: inserts `n` if absent; an existing node keeps
its position (networkx merely updates its attributes, which are not
modelled). -/
def add_node (g : NxDiGraph) (n : String) : NxDiGraph :=
  if n ∈ g.nodes then g else { g with nodes := g.nodes ++ [n] }

/-- Model of `G.add_edge(u, v, **attrs)`: inserts missing endpoints as nodes, then
either overwrites the attributes of the existing `(src, tgt)` edge (a
`DiGraph` holds no parallel edges) or appends a new edge. Since `add_node`
leaves the edge list unchanged, the edge update is stated against `g.edges`
directly. -/
def add_edge (g : NxDiGraph) (e : Edge) : NxDiGraph :=
  { nodes := ((g.add_node e.src).add_node e.tgt).nodes
    edges :=
      if g.edges.any (fun e0 => e0.src == e.src && e0.tgt == e.tgt) then
        g.edges.map (fun e0 => if e0.src = e.src ∧ e0.tgt = e.tgt then e else e0)
      else g.edges ++ [e] }

/-- Successor iteration `G.successors(u)` / `G.edges(u)`: targets of the
edges leaving `u`, in edge-insertion order. -/
def successors (g : NxDiGraph) (u : String) : List String :=
  (g.edges.filter (fun e => e.src == u)).map (fun e => e.tgt)

/-- Holds when `(u, v)` is a directed edge of the graph. -/
def hasEdge (g : NxDiGraph) (u v : String) : Prop :=
  ∃ e ∈ g.edges, e.src = u ∧ e.tgt = v

instance (g : NxDiGraph) (u v : String) : Decidable (g.hasEdge u v) :=
  List.decidableBEx _ _

/-- Depth-first search underlying `networkx.all_simple_paths`: `cur` is the
current node, `vis` the (reversed) list of previously visited nodes of the
current partial path and `fuel` the remaining edge budget. A completed path
is emitted whenever `cur` is the target; with positive budget the partial
path is extended by each not-yet-visited successor. -/
def pathsGo (g : NxDiGraph) (t : String) : Nat → String → List String → List (List String)
  | 0, cur, vis => if cur = t then [(cur :: vis).reverse] else []
  | Nat.succ f, cur, vis =>
    (if cur = t then [(cur :: vis).reverse] else []) ++
    ((g.successors cur).filter (fun v => decide (v ∉ cur :: vis))).flatMap
      (fun v => pathsGo g t f v (cur :: vis))

/-- Model of `nx.all_simple_paths(G, source, target, cutoff)` as used by
`KnowledgeGraph.find_paths`: the simple directed paths from `source` to
`target` with at most `cutoff` edges. Per the documented contract, a missing
`source` or `target` node raises `NodeNotFound`; `find_paths` catches it and
returns `[]`, which the guard below realises. -/
def all_simple_paths (g : NxDiGraph) (s t : String) (cutoff : Nat) : List (List String) :=
  if s ∈ g.nodes ∧ t ∈ g.nodes then pathsGo g t cutoff s [] else []

/-- Closure invariant of the node set under the edge set: every edge's
endpoints are nodes of the graph. -/
def edgeClosed (g : NxDiGraph) : Prop :=
  ∀ e ∈ g.edges, e.src ∈ g.nodes ∧ e.tgt ∈ g.nodes

end NxDiGraph

/-- Entity record (`Entity` dataclass, src/schema.py). The `EntityType` enum
is modelled by its string `.value`; the free-form `attributes` dict is not
modelled — no claim reads it. -/
structure Entity where
  name : String
  entity_type : String
  description : String
  source_chapter : String
deriving Repr, DecidableEq, Inhabited

/-- Relationship record (`Relationship` dataclass, src/schema.py). The
`RelationType` enum is modelled by its string `.value`. -/
structure Relationship where
  source : String
  target : String
  relation_type : String
  description : String
  weight : ℚ
  source_text : String
deriving Repr, DecidableEq, Inhabited

/-- State of `KnowledgeGraph` (src/graph_builder.py): the networkx digraph
`self.graph`, the `self.entities` dict (modelled as an insertion-ordered
association list, as Python dicts preserve insertion order) and the
`self.relationships` list. -/
structure KnowledgeGraph where
  graph : NxDiGraph
  entities : List (String × Entity)
  relationships : List Relationship
deriving Repr, DecidableEq, Inhabited

namespace KnowledgeGraph

/-- Fresh `KnowledgeGraph()`. -/
def empty : KnowledgeGraph := ⟨NxDiGraph.empty, [], []⟩

/-- Python dict assignment `d[k] = v`: overwrites in place if the key exists
(keeping its position), otherwise appends. -/
def dictInsert (d : List (String × Entity)) (k : String) (v : Entity) :
    List (String × Entity) :=
  if d.any (fun kv => kv.1 == k) then
    d.map (fun kv => if kv.1 = k then (k, v) else kv)
  else d ++ [(k, v)]

/-- Model of `KnowledgeGraph.add_entity`: stores the entity under its name in the
dict and adds a graph node carrying its attributes. -/
def add_entity (kg : KnowledgeGraph) (e : Entity) : KnowledgeGraph :=
  { kg with
    entities := dictInsert kg.entities e.name e
    graph := kg.graph.add_node e.name }

/-- Model of `KnowledgeGraph.add_relationship`: appends to the relationship list and
adds a graph edge from `rel.source` to `rel.target` with the relationship's
attributes. The `entities` dict is not touched. -/
def add_relationship (kg : KnowledgeGraph) (r : Relationship) : KnowledgeGraph :=
  { kg with
    relationships := kg.relationships ++ [r]
    graph := kg.graph.add_edge ⟨r.source, r.target, r.relation_type, r.description, r.weight⟩ }

/-- Model of `KnowledgeGraph.find_paths`: `list(nx.all_simple_paths(graph, source,
target, cutoff=max_length))`, with `NodeNotFound` caught and turned into
`[]` (the `NetworkXNoPath` handler is unreachable for this call). -/
def find_paths (kg : KnowledgeGraph) (s t : String) (max_length : Nat) : List (List String) :=
  NxDiGraph.all_simple_paths kg.graph s t max_length

/-- Model of `KnowledgeGraph.get_neighbors`: for a known node, the Python dict
`{"in": [...], "out": [...]}` (modelled as an insertion-ordered association
list, each neighbour record `{"entity": …, "relation": …}` as a pair); for
an unknown node, the empty dict `{}`. Predecessor/successor iteration order
is edge-insertion order. -/
def get_neighbors (kg : KnowledgeGraph) (entity_name : String) :
    List (String × List (String × String)) :=
  if entity_name ∈ kg.graph.nodes then
    [("in", (kg.graph.edges.filter (fun e => e.tgt == entity_name)).map
        (fun e => (e.src, e.relation_type))),
     ("out", (kg.graph.edges.filter (fun e => e.src == entity_name)).map
        (fun e => (e.tgt, e.relation_type)))]
  else []

end KnowledgeGraph

/-- Concrete chain graph `X → Y → Z` built through the store's own
operations, used to instantiate the path-enumeration theorem. -/
def kgXYZ : KnowledgeGraph :=
  (KnowledgeGraph.empty.add_relationship ⟨"X", "Y", "相关", "", 1, ""⟩).add_relationship
    ⟨"Y", "Z", "相关", "", 1, ""⟩

/-- Relationship used in the closure counterexample: `A --相关--> B`, with
neither endpoint ever registered through `add_entity`. -/
def relAB : Relationship := ⟨"A", "B", "相关", "", 1, ""⟩

/-- Single mutation of the knowledge-graph store. -/
inductive GraphOp where
  | addEntity (e : Entity)
  | addRel (r : Relationship)
deriving Repr, DecidableEq

/-- Application of one store operation. -/
def applyOp (kg : KnowledgeGraph) : GraphOp → KnowledgeGraph
  | .addEntity e => kg.add_entity e
  | .addRel r => kg.add_relationship r

/-- Application of a sequence of store operations, oldest first. -/
def applyOps (kg : KnowledgeGraph) (ops : List GraphOp) : KnowledgeGraph :=
  ops.foldl applyOp kg

namespace VectorStore

/-- Parsed persisted artifacts of an index directory (`chunks.json` and
`embeddings.npy`), each present or absent. The artifacts are modelled as
already-parsed values; malformed-file exceptions are outside the model. -/
structure Artifacts where
  chunks_json : Option (List TextChunk)
  embeddings_npy : Option (List (List ℚ))
deriving Repr, DecidableEq, Inhabited

/-- Store state relevant to persistence: `self.chunks` and
`self.embeddings` (`none` before any build or load). -/
structure StoreState where
  chunks : List TextChunk
  embeddings : Option (List (List ℚ))
deriving Repr, DecidableEq, Inhabited

/-- Model of `VectorStore.load` (src/vector_store.py): returns `false` when
either artifact file is missing, leaving the state untouched; otherwise
replaces chunks and embeddings wholesale and returns `true`. No
row-count/consistency comparison appears in the code. -/
def load (st : StoreState) (dir : Artifacts) : StoreState × Bool :=
  match dir.chunks_json, dir.embeddings_npy with
  | some cs, some m => (⟨cs, some m⟩, true)
  | _, _ => (st, false)

/-- Mismatched persisted artifacts: one chunk but a two-row matrix. -/
def mismatchedDir : Artifacts := ⟨some [⟨"t", "c", 0⟩], some [[1], [2]]⟩

/-- Paragraph step of the accumulation loop in `VectorStore._split_text`:
strip the paragraph; skip it if blank; append it to the buffer if the
combined length stays below `chunk_size`; otherwise emit the stripped buffer
as a chunk (when non-empty) and start a new buffer, seeded with the last
`chunk_overlap` characters of the old buffer when the overlap is positive
and the old buffer is longer than it. -/
def splitStep (chunk_size chunk_overlap : Nat) (chapter : String)
    (st : List TextChunk × String) (para0 : String) : List TextChunk × String :=
  if strTrim para0 = "" then st
  else if st.2.length + (strTrim para0).length < chunk_size then
    (st.1, st.2 ++ strTrim para0 ++ "\n\n")
  else
    ((if st.2 = "" then st.1 else st.1 ++ [⟨strTrim st.2, chapter, st.1.length⟩]),
     (if chunk_overlap > 0 ∧ st.2.length > chunk_overlap then
        strTakeRight st.2 chunk_overlap ++ strTrim para0 ++ "\n\n"
      else strTrim para0 ++ "\n\n"))

/-- Section body of the chapter loop in `_split_text`: strip the section,
skip it when shorter than 50 characters, split it into paragraphs on blank
lines, fold the paragraph step starting from an *empty* buffer, and flush a
non-whitespace final buffer as a last chunk. -/
def processSection (chunk_size chunk_overlap : Nat) (chapter : String)
    (chunks : List TextChunk) (sectionText : String) : List TextChunk :=
  if (strTrim sectionText).length < 50 then chunks
  else
    if strTrim ((strSplitOn (strTrim sectionText) "\n\n").foldl
        (splitStep chunk_size chunk_overlap chapter) (chunks, "")).2 = "" then
      ((strSplitOn (strTrim sectionText) "\n\n").foldl
        (splitStep chunk_size chunk_overlap chapter) (chunks, "")).1
    else
      ((strSplitOn (strTrim sectionText) "\n\n").foldl
        (splitStep chunk_size chunk_overlap chapter) (chunks, "")).1 ++
      [⟨strTrim ((strSplitOn (strTrim sectionText) "\n\n").foldl
          (splitStep chunk_size chunk_overlap chapter) (chunks, "")).2,
        chapter,
        ((strSplitOn (strTrim sectionText) "\n\n").foldl
          (splitStep chunk_size chunk_overlap chapter) (chunks, "")).1.length⟩]

/-- Chapter loop of `_split_text` over the alternating content, title,
content, … list produced by `re.split` on the chapter-marker pattern (the
regex split itself is Python library behaviour; this function consumes its
output). `isTitle` tracks the index parity; a title element only updates the
current chapter label. -/
def splitTextGo (chunk_size chunk_overlap : Nat) :
    List String → Bool → String → List TextChunk → List TextChunk
  | [], _, _, chunks => chunks
  | s :: rest, true, _, chunks => splitTextGo chunk_size chunk_overlap rest false s chunks
  | s :: rest, false, chapter, chunks =>
    splitTextGo chunk_size chunk_overlap rest true chapter
      (processSection chunk_size chunk_overlap chapter chunks s)

/-- Model of `VectorStore._split_text` on the section list produced by the
chapter-marker split: initial chapter label `未知章节`, first element a
content section. -/
def split_text (sections : List String) (chunk_size chunk_overlap : Nat) : List TextChunk :=
  splitTextGo chunk_size chunk_overlap sections false "未知章节" []

/-- Erasure of a chunk to its section-determined content (text and chapter,
dropping the global sequence index). -/
def chunkContent (c : TextChunk) : String × String := (c.text, c.chapter)

end VectorStore

namespace GraphQueryEngine

/-- Model of `GraphQueryEngine._fuzzy_match_entity` (src/query_engine.py): exact
(case-sensitive) key match against the entity dict first; otherwise the
first entity name — in dict-insertion (registration) order — whose lowercase
form contains the lowercase candidate or is contained in it; `None` when no
name matches. -/
def fuzzy_match_entity (kg : KnowledgeGraph) (query : String) : Option String :=
  if query ∈ kg.entities.map Prod.fst then some query
  else (kg.entities.map Prod.fst).find? (fun name =>
    substrOccurs (strLower query).data (strLower name).data ||
    substrOccurs (strLower name).data (strLower query).data)

/-- EntityMatcher contract written from the specification's words, for the
refinement comparison: exact match takes priority; otherwise the first name,
in registration order, among those matching case-insensitively as a
substring in either direction; an explicit none result when nothing
matches. -/
def matchSpec (names : List String) (candidate : String) : Option String :=
  if candidate ∈ names then some candidate
  else (names.filter (fun name =>
    substrOccurs (strLower candidate).data (strLower name).data ||
    substrOccurs (strLower name).data (strLower candidate).data)).head?

/-- Registry with the two entities of the specification's matcher
scenario, built through the store's own operations. -/
def kgMatcher : KnowledgeGraph :=
  (KnowledgeGraph.empty.add_entity
      ⟨"安全边际", "原则", "投资时保持足够的安全空间", ""⟩).add_entity
    ⟨"能力圈", "概念", "只在自己理解的领域投资", ""⟩

end GraphQueryEngine

namespace HybridQueryEngine

/-- Conversation message `{"role": …, "content": …}`. -/
structure Msg where
  role : String
  content : String
deriving Repr, DecidableEq, Inhabited

/-- Model of `HybridQueryEngine._build_search_query` (src/vector_store.py): with no
history (`None` or empty) the question alone; otherwise the `role == "user"`
messages among the last 4 history messages, each truncated to its first 100
characters, joined by single spaces and followed by a space and the
question; the question alone again if that selection is empty. -/
def build_search_query (question : String) (history : Option (List Msg)) : String :=
  match history with
  | none => question
  | some h =>
    if h.isEmpty then question
    else
      if (((h.drop (h.length - 4)).filter (fun m => m.role == "user")).map
          (fun m => strTake m.content 100)).isEmpty then question
      else
        String.intercalate " "
          (((h.drop (h.length - 4)).filter (fun m => m.role == "user")).map
            (fun m => strTake m.content 100)) ++ " " ++ question

/-- Effective-query builder as the claim words it, for the comparison: at
most the last 2 user turns of the history, in chronological order, each
truncated to a 100-character prefix, followed by the current question. -/
def build_search_query_claimed (question : String) (history : Option (List Msg)) : String :=
  match history with
  | none => question
  | some h =>
    if (((h.filter (fun m => m.role == "user")).map
          (fun m => strTake m.content 100)).drop
        ((h.filter (fun m => m.role == "user")).length - 2)).isEmpty then question
    else
      String.intercalate " "
        (((h.filter (fun m => m.role == "user")).map
            (fun m => strTake m.content 100)).drop
          ((h.filter (fun m => m.role == "user")).length - 2)) ++ " " ++ question

/-- Three consecutive user turns with no assistant replies. -/
def hist3 : List Msg := [⟨"user", "a"⟩, ⟨"user", "b"⟩, ⟨"user", "c"⟩]

/-- Amended effective-query builder, stated from the amended claim's words
(collecting the user turns of the last four messages right-to-left): the
user-turn contents among the last 4 messages of the history, chronological,
each truncated to 100 characters, joined by spaces before the question; the
question unchanged when the history is empty or absent or contributes no
user turn. -/
def build_search_query_amended (question : String) (history : Option (List Msg)) : String :=
  match history with
  | none => question
  | some h =>
    match (h.drop (h.length - 4)).foldr
        (fun m acc => if m.role = "user" then strTake m.content 100 :: acc else acc) [] with
    | [] => question
    | x :: xs => String.intercalate " " (x :: xs) ++ " " ++ question

/-- Question particles skipped by the character-overlap entity heuristic of
`_get_matched_entities` and `_get_graph_context`. -/
def stopChars : List Char := "？?的是什么怎么如何为".data

/-- Character-overlap heuristic `any(char in name for char in question if char not in stopChars)`. -/
def charMatch (question name : String) : Bool :=
  (question.data.filter (fun c => !stopChars.contains c)).any (fun c => name.data.contains c)

/-- Entry of the `graph_entities` field of a query result. -/
structure GraphEntityInfo where
  name : String
  entity_type : String
  description : String
deriving Repr, DecidableEq, Inhabited

/-- Model of `HybridQueryEngine._get_matched_entities`: the entities (in dict order)
sharing a non-stopword character with the question, capped at 5; `[]` when
the graph collaborator is absent. -/
def get_matched_entities (graph : Option KnowledgeGraph) (question : String) :
    List GraphEntityInfo :=
  match graph with
  | none => []
  | some g =>
    ((g.entities.filter (fun kv => charMatch question kv.1)).map
      (fun kv => ⟨kv.1, kv.2.entity_type, kv.2.description⟩)).take 5

/-- Citation record produced by `_extract_citations`. -/
structure Citation where
  id : Nat
  chapter : String
  text : String
  score : ℚ
deriving Repr, DecidableEq, Inhabited

/-- Round-half-to-even to an integer, Python's `round` rule, on the rational
model of the float score. -/
def roundHalfEven (x : ℚ) : ℤ :=
  if x - ⌊x⌋ < 1/2 then ⌊x⌋
  else if x - ⌊x⌋ > 1/2 then ⌊x⌋ + 1
  else if ⌊x⌋ % 2 = 0 then ⌊x⌋ else ⌊x⌋ + 1

/-- Python `round(x, 3)`. -/
def pyRound3 (x : ℚ) : ℚ := (roundHalfEven (x * 1000) : ℚ) / 1000

/-- Model of `HybridQueryEngine._extract_citations`: each enumerated result with
score above 0.3 becomes a citation with 1-based id (of the original
enumeration), chapter, 300-character-truncated text (with ellipsis when
truncated) and score rounded to 3 places. -/
def extract_citations (results : List (TextChunk × ℚ)) : List Citation :=
  (results.enum.filter (fun p => (3 : ℚ)/10 < p.2.2)).map
    (fun p => ⟨p.1 + 1,
               p.2.1.chapter,
               (if 300 < p.2.1.text.length then strTake p.2.1.text 300 ++ "..." else p.2.1.text),
               pyRound3 p.2.2⟩)

/-- Model of `HybridQueryEngine._get_graph_context`: for each entity whose name
shares a non-stopword character with the question (dict order), a header
line and up to 3 outgoing-relation lines; at most 10 lines joined by
newlines; `""` when the graph collaborator is absent. -/
def get_graph_context (graph : Option KnowledgeGraph) (question : String) : String :=
  match graph with
  | none => ""
  | some g =>
    String.intercalate "\n"
      ((g.entities.flatMap (fun kv =>
        if charMatch question kv.1 then
          ("- **" ++ kv.1 ++ "**（" ++ kv.2.entity_type ++ "）：" ++ kv.2.description) ::
          (match (g.get_neighbors kv.1).lookup "out" with
           | some outs => (outs.take 3).map (fun r => "  → " ++ r.2 ++ " → " ++ r.1)
           | none => [])
        else [])).take 10)

/-- Model of `HybridQueryEngine._build_context`: the numbered book passages (those
with score above 0.3, text truncated to 500 characters) followed by the
graph-context block when non-empty, joined by newlines. -/
def build_context (vector_results : List (TextChunk × ℚ)) (graph_context : String) : String :=
  String.intercalate "\n"
    ((if vector_results.isEmpty then [] else
        "## 📖 书中相关原文\n" ::
        (vector_results.enum.flatMap (fun p =>
          if (3 : ℚ)/10 < p.2.2 then
            ["**[" ++ toString (p.1 + 1) ++ "] 来源：" ++ p.2.1.chapter ++ "**",
             "> " ++ strTake p.2.1.text 500 ++ "...",
             ""]
          else []))) ++
     (if graph_context = "" then [] else ["\n## 🔗 知识图谱中的相关概念\n", graph_context]))

/-- History block of `_generate_answer`: the last 6 messages, each rendered
as a role-labelled line with content truncated to 300 characters and HTML
tags stripped. -/
def historyText (history : Option (List Msg)) : String :=
  match history with
  | none => ""
  | some h =>
    if h.isEmpty then ""
    else
      "\n## 📜 对话历史\n" ++
      String.join ((h.drop (h.length - 6)).map (fun m =>
        "**" ++ (if m.role == "user" then "用户" else "助手") ++ "**: " ++
        stripTags (strTake m.content 300) ++ "\n\n"))

/-- Prompt assembled by `_generate_answer`. -/
def answerPrompt (question context : String) (history : Option (List Msg)) : String :=
  "你是一位精通查理·芒格思想的专家。请根据以下信息回答用户的问题。\n" ++
  historyText history ++
  "\n## 参考信息\n" ++ context ++
  "\n\n## 当前问题\n" ++ question ++
  "\n\n## 回答要求\n1. **注意对话上下文**：如果用户的问题涉及到之前的对话内容，请结合上下文理解用户意图\n2. **必须引用书中原文**：在引用时使用 [1]、[2] 等标记对应上面的来源编号\n3. 使用 Markdown 格式组织回答，包括：\n   - 使用 `>` 引用书中的重要原话\n   - 使用 `**粗体**` 强调关键概念\n   - 使用列表组织要点\n4. 结合知识图谱中的关系进行深度分析\n5. 回答要准确、有深度、有条理\n6. 如果用户在追问或要求展开，请基于之前的回答进行深入\n7. 如果信息不足，请诚实说明\n\n请用中文回答："

/-- Model of `HybridQueryEngine._generate_answer`: one generation-backend call on the
assembled prompt (the `complete`/`chat` duck-typing collapses to a single
callable); a raising backend is modelled by `Except.error`, and the
`except` branch renders the exception as an error-message answer. -/
def generate_answer (llm : String → Except String String)
    (question context : String) (history : Option (List Msg)) : String :=
  match llm (answerPrompt question context history) with
  | Except.ok text => text
  | Except.error e => "生成回答时出错: " ++ e

/-- Result dict of `HybridQueryEngine.query`. -/
structure QueryResult where
  answer : String
  citations : List Citation
  graph_entities : List GraphEntityInfo
deriving Repr, DecidableEq, Inhabited

/-- Model of `HybridQueryEngine.query`: vector search on the history-expanded query,
graph context, fused context, answer generation, citation extraction. The
vector store is given by its chunk list and by the similarity vector each
query string induces (`scoresOf`, abstracting the external embedding
backend). -/
def query (chunks : List TextChunk) (scoresOf : String → List ℚ)
    (graph : Option KnowledgeGraph) (llm : String → Except String String)
    (question : String) (top_k : Nat) (history : Option (List Msg)) : QueryResult :=
  { answer := generate_answer llm question
      (build_context
        (VectorStore.search chunks (scoresOf (build_search_query question history)) top_k)
        (get_graph_context graph question))
      history
    citations := extract_citations
      (VectorStore.search chunks (scoresOf (build_search_query question history)) top_k)
    graph_entities := get_matched_entities graph question }

end HybridQueryEngine

namespace VectorStore

/-- Helper: the reversed ascending argsort is pairwise-ordered by the
reversed relation. -/
lemma pairwise_rev_argsort (scores : List ℚ) :
    List.Pairwise (fun i j => argsortRel scores j i)
      ((List.insertionSort (argsortRel scores) (List.range scores.length)).reverse) := by
  rw [List.pairwise_reverse]
  exact List.sorted_insertionSort (argsortRel scores) (List.range scores.length)

/-- Helper: `searchOrder` is pairwise-ordered by the reversed relation. -/
lemma pairwise_searchOrder (scores : List ℚ) (top_k : Nat) :
    List.Pairwise (fun i j => argsortRel scores j i) (searchOrder scores top_k) :=
  (pairwise_rev_argsort scores).sublist (List.take_sublist _ _)

/-- C1. For every stored chunk list, every similarity vector a query can
induce, and every `top_k ≥ 0`, `VectorStore.search` returns at most `top_k`
`(chunk, score)` pairs, and the returned pairs are ordered by non-increasing
similarity score. -/
theorem search_returns_at_most_topk_sorted (chunks : List TextChunk)
    (scores : List ℚ) (top_k : Nat) :
    (search chunks scores top_k).length ≤ top_k ∧
    List.Sorted (fun a b : TextChunk × ℚ => b.2 ≤ a.2) (search chunks scores top_k) := by
  constructor
  · unfold search
    split
    · simp
    · rw [List.length_map]
      exact (List.length_take_le _ _)
  · unfold search
    split
    · simp
    · rw [List.Sorted, List.pairwise_map]
      apply (pairwise_searchOrder scores top_k).imp
      intro i j hr
      rcases hr with h1 | ⟨h1, _⟩
      · exact le_of_lt h1
      · exact le_of_eq h1

/-- C4 counterexample. On a two-chunk index whose similarity scores tie, the
search ranking returns the chunk with the *highest* sequence index first,
not the lowest: the claimed output would be `[(c0, 1), (c1, 1)]`, but the
code produces `[(c1, 1), (c0, 1)]` (ascending argsort reversed; on a
two-element array numpy's default sort is its small-array insertion sort,
which deterministically leaves the tied pair in position order `[0, 1]`). -/
theorem search_tie_order_counterexample :
    search tieChunks tieScores 2 = [(⟨"c1", "ch", 1⟩, 1), (⟨"c0", "ch", 0⟩, 1)] := by
  decide

/-- C4 amended. Ties between equal-scoring chunks are *not* returned lowest
sequence index first; the ranking reverses an ascending argsort, whose tie
order the program pins down only where numpy's default sort is its stable
small-array insertion sort. In that regime the outcome is the opposite of
the claim: on every two-chunk index with tied scores, `search` returns the
chunk with the higher sequence index first, for every tied score value. For
larger ties the default sort's order among equal scores is unspecified. -/
theorem search_two_chunk_tie_highest_index_first (c0 c1 : TextChunk) (s : ℚ) :
    search [c0, c1] [s, s] 2 = [(c1, s), (c0, s)] := by
  have hr : argsortRel [s, s] 0 1 := Or.inr ⟨rfl, Nat.zero_le 1⟩
  have h2 : List.insertionSort (argsortRel [s, s])
      (List.range ([s, s] : List ℚ).length) = [0, 1] := by
    show List.insertionSort (argsortRel [s, s]) [0, 1] = [0, 1]
    simp only [List.insertionSort, List.orderedInsert]
    rw [if_pos hr]
  unfold search searchOrder
  rw [h2]
  rfl

end VectorStore

namespace NxDiGraph

lemma mem_successors {g : NxDiGraph} {u v : String} :
    v ∈ g.successors u ↔ g.hasEdge u v := by
  unfold successors hasEdge
  simp only [List.mem_map, List.mem_filter, beq_iff_eq]
  constructor
  · rintro ⟨e, ⟨he, hs⟩, ht⟩
    exact ⟨e, he, hs, ht⟩
  · rintro ⟨e, he, hs, ht⟩
    exact ⟨e, ⟨he, hs⟩, ht⟩

/-- Characterisation of the DFS: the emitted lists are exactly the visited
prefix followed by a duplicate-free edge-chain from `cur` to `t` that avoids
the visited nodes and fits in the fuel budget. -/
lemma pathsGo_mem (g : NxDiGraph) (t : String) :
    ∀ (fuel : Nat) (cur : String) (vis : List String) (q : List String),
    q ∈ pathsGo g t fuel cur vis ↔
      ∃ p : List String,
        q = vis.reverse ++ cur :: p ∧
        List.Chain g.hasEdge cur p ∧
        (cur :: p).getLast (List.cons_ne_nil _ _) = t ∧
        (cur :: p).Nodup ∧
        (∀ x ∈ p, x ∉ vis) ∧
        p.length ≤ fuel := by
  intro fuel
  induction fuel with
  | zero =>
    intro cur vis q
    constructor
    · intro hq
      unfold pathsGo at hq
      by_cases hct : cur = t
      · rw [if_pos hct, List.mem_singleton] at hq
        refine ⟨[], by simpa using hq, List.Chain.nil, hct, by simp, by simp, by simp⟩
      · rw [if_neg hct] at hq
        exact absurd hq (List.not_mem_nil q)
    · rintro ⟨p, hq, _, hlast, _, _, hlen⟩
      have hp : p = [] := List.length_eq_zero.mp (Nat.le_zero.mp hlen)
      subst hp
      simp only [List.getLast_singleton] at hlast
      subst hlast
      unfold pathsGo
      rw [if_pos rfl, List.mem_singleton, hq]
      simp
  | succ f ih =>
    intro cur vis q
    unfold pathsGo
    rw [List.mem_append, List.mem_flatMap]
    constructor
    · rintro (hyield | ⟨v, hv, hrec⟩)
      · by_cases hct : cur = t
        · rw [if_pos hct, List.mem_singleton] at hyield
          exact ⟨[], by simpa using hyield, List.Chain.nil, hct, by simp, by simp, by simp⟩
        · rw [if_neg hct] at hyield
          exact absurd hyield (List.not_mem_nil q)
      · rw [List.mem_filter, decide_eq_true_eq] at hv
        obtain ⟨hvsucc, hvnot⟩ := hv
        obtain ⟨p', hq, hchain, hlast, hnodup, hfresh, hlen⟩ := (ih v (cur :: vis) q).mp hrec
        have hvne : v ≠ cur := fun h => hvnot (h ▸ List.mem_cons_self _ _)
        have hvvis : v ∉ vis := fun h => hvnot (List.mem_cons_of_mem _ h)
        refine ⟨v :: p', ?_, ?_, ?_, ?_, ?_, ?_⟩
        · rw [hq, List.reverse_cons, List.append_assoc]
          rfl
        · exact List.Chain.cons (mem_successors.mp hvsucc) hchain
        · rw [List.getLast_cons (List.cons_ne_nil _ _)]
          exact hlast
        · rw [List.nodup_cons]
          refine ⟨?_, hnodup⟩
          intro hcv
          rw [List.mem_cons] at hcv
          rcases hcv with hcv | hcur
          · exact hvne hcv.symm
          · exact (hfresh cur hcur) (List.mem_cons_self _ _)
        · intro x hx
          rw [List.mem_cons] at hx
          rcases hx with rfl | hx
          · exact hvvis
          · exact fun h => (hfresh x hx) (List.mem_cons_of_mem _ h)
        · simpa using Nat.succ_le_succ hlen
    · rintro ⟨p, hq, hchain, hlast, hnodup, hfresh, hlen⟩
      cases p with
      | nil =>
        left
        simp only [List.getLast_singleton] at hlast
        subst hlast
        rw [if_pos rfl, List.mem_singleton, hq]
        simp
      | cons v p' =>
        right
        rw [List.chain_cons] at hchain
        obtain ⟨hedge, hchain'⟩ := hchain
        rw [List.nodup_cons] at hnodup
        obtain ⟨hcurnot, hnodup'⟩ := hnodup
        refine ⟨v, ?_, ?_⟩
        · rw [List.mem_filter, decide_eq_true_eq]
          refine ⟨mem_successors.mpr hedge, ?_⟩
          intro hv
          rw [List.mem_cons] at hv
          rcases hv with rfl | hv
          · exact hcurnot (List.mem_cons_self _ _)
          · exact (hfresh v (List.mem_cons_self _ _)) hv
        · refine (ih v (cur :: vis) q).mpr ⟨p', ?_, hchain', ?_, hnodup', ?_, ?_⟩
          · rw [hq, List.reverse_cons, List.append_assoc]
            rfl
          · rw [← List.getLast_cons (l := v :: p') (List.cons_ne_nil _ _)]
            exact hlast
          · intro x hx
            intro hxcv
            rw [List.mem_cons] at hxcv
            rcases hxcv with rfl | hxvis
            · exact hcurnot (List.mem_cons_of_mem _ hx)
            · exact (hfresh x (List.mem_cons_of_mem _ hx)) hxvis
          · exact Nat.le_of_succ_le_succ (by simpa using hlen)

/-- Membership characterisation of `all_simple_paths`: the returned lists
are exactly the duplicate-free edge-chains from `s` to `t` with at most
`cutoff` edges, provided both endpoints are nodes of the graph. -/
lemma all_simple_paths_mem (g : NxDiGraph) (s t : String) (k : Nat) (q : List String) :
    q ∈ all_simple_paths g s t k ↔
      (s ∈ g.nodes ∧ t ∈ g.nodes ∧ q.head? = some s ∧ q.getLast? = some t ∧
       q.Nodup ∧ q.Chain' g.hasEdge ∧ q.length ≤ k + 1) := by
  unfold all_simple_paths
  by_cases hst : s ∈ g.nodes ∧ t ∈ g.nodes
  · rw [if_pos hst, pathsGo_mem]
    constructor
    · rintro ⟨p, hq, hchain, hlast, hnodup, _, hlen⟩
      rw [List.reverse_nil, List.nil_append] at hq
      subst hq
      refine ⟨hst.1, hst.2, rfl, ?_, hnodup, hchain, by simpa using Nat.succ_le_succ hlen⟩
      rw [List.getLast?_eq_getLast _ (List.cons_ne_nil _ _), hlast]
    · rintro ⟨_, _, hhead, hlast, hnodup, hchain, hlen⟩
      cases q with
      | nil => simp at hhead
      | cons a p =>
        rw [List.head?_cons, Option.some.injEq] at hhead
        subst hhead
        refine ⟨p, by simp, hchain, ?_, hnodup, by simp, ?_⟩
        · rw [List.getLast?_eq_getLast _ (List.cons_ne_nil _ _), Option.some.injEq] at hlast
          exact hlast
        · exact Nat.le_of_succ_le_succ (by simpa using hlen)
  · rw [if_neg hst]
    constructor
    · intro h
      exact absurd h (List.not_mem_nil q)
    · rintro ⟨h1, h2, _⟩
      exact absurd ⟨h1, h2⟩ hst

lemma mem_nodes_add_node {g : NxDiGraph} {m : String} (n : String) (h : m ∈ g.nodes) :
    m ∈ (g.add_node n).nodes := by
  unfold add_node
  split
  · exact h
  · exact List.mem_append_left _ h

lemma self_mem_add_node (g : NxDiGraph) (n : String) : n ∈ (g.add_node n).nodes := by
  unfold add_node
  split
  case isTrue h => exact h
  case isFalse h => exact List.mem_append_right _ (List.mem_singleton.mpr rfl)

lemma edges_add_node (g : NxDiGraph) (n : String) : (g.add_node n).edges = g.edges := by
  unfold add_node
  split <;> rfl

lemma edgeClosed_add_node {g : NxDiGraph} (n : String) (h : g.edgeClosed) :
    (g.add_node n).edgeClosed := by
  intro e he
  rw [edges_add_node] at he
  obtain ⟨h1, h2⟩ := h e he
  exact ⟨mem_nodes_add_node n h1, mem_nodes_add_node n h2⟩

lemma edgeClosed_add_edge {g : NxDiGraph} (e : Edge) (h : g.edgeClosed) :
    (g.add_edge e).edgeClosed := by
  have hsrc : e.src ∈ (g.add_edge e).nodes :=
    mem_nodes_add_node e.tgt (self_mem_add_node g e.src)
  have htgt : e.tgt ∈ (g.add_edge e).nodes := self_mem_add_node _ e.tgt
  have hmono : ∀ m, m ∈ g.nodes → m ∈ (g.add_edge e).nodes := fun m hm =>
    mem_nodes_add_node e.tgt (mem_nodes_add_node e.src hm)
  intro e' he'
  have he'cases : e' = e ∨ e' ∈ g.edges := by
    unfold add_edge at he'
    dsimp only at he'
    split at he'
    · rw [List.mem_map] at he'
      obtain ⟨e0, he0, heq⟩ := he'
      by_cases hc : e0.src = e.src ∧ e0.tgt = e.tgt
      · rw [if_pos hc] at heq
        exact Or.inl heq.symm
      · rw [if_neg hc] at heq
        exact Or.inr (heq ▸ he0)
    · rw [List.mem_append] at he'
      rcases he' with he' | he'
      · exact Or.inr he'
      · exact Or.inl (List.mem_singleton.mp he')
  rcases he'cases with rfl | he'old
  · exact ⟨hsrc, htgt⟩
  · obtain ⟨h1, h2⟩ := h e' he'old
    exact ⟨hmono _ h1, hmono _ h2⟩

end NxDiGraph

/-- C2. For every knowledge-graph state, `KnowledgeGraph.find_paths(source,
target, max_length)` returns exactly the simple (no-repeated-node) directed
paths from `source` to `target` with at most `max_length` edges (a list `q`
is returned iff it starts at `source`, ends at `target`, repeats no node,
steps along directed edges and has at most `max_length + 1` nodes, with both
endpoints present); when either endpoint is absent it returns the empty
sequence without raising; and for any two distinct nodes `a`, `b`,
`find_paths(a, b, 0)` is empty. -/
theorem find_paths_exactly_simple_paths (kg : KnowledgeGraph) (s t : String) (k : Nat) :
    (∀ q, q ∈ kg.find_paths s t k ↔
      (s ∈ kg.graph.nodes ∧ t ∈ kg.graph.nodes ∧ q.head? = some s ∧
       q.getLast? = some t ∧ q.Nodup ∧ q.Chain' kg.graph.hasEdge ∧
       q.length ≤ k + 1)) ∧
    ((s ∉ kg.graph.nodes ∨ t ∉ kg.graph.nodes) → kg.find_paths s t k = []) ∧
    (s ≠ t → kg.find_paths s t 0 = []) := by
  refine ⟨fun q => NxDiGraph.all_simple_paths_mem kg.graph s t k q, ?_, ?_⟩
  · intro habs
    unfold KnowledgeGraph.find_paths NxDiGraph.all_simple_paths
    rw [if_neg (fun hst => habs.elim (fun h => h hst.1) (fun h => h hst.2))]
  · intro hne
    unfold KnowledgeGraph.find_paths NxDiGraph.all_simple_paths
    by_cases hst : s ∈ kg.graph.nodes ∧ t ∈ kg.graph.nodes
    · rw [if_pos hst]
      unfold NxDiGraph.pathsGo
      rw [if_neg hne]
    · rw [if_neg hst]

/-- Witness for C2: on the chain `X → Y → Z`, the zero-length query between
the distinct nodes `X` and `Z` is empty, and `["X", "Y", "Z"]` is returned
within bound 4. -/
theorem find_paths_exactly_simple_paths_witness :
    kgXYZ.find_paths "X" "Z" 0 = [] ∧ ["X", "Y", "Z"] ∈ kgXYZ.find_paths "X" "Z" 4 := by
  constructor
  · exact (find_paths_exactly_simple_paths kgXYZ "X" "Z" 0).2.2 (by decide)
  · exact ((find_paths_exactly_simple_paths kgXYZ "X" "Z" 4).1 _).mpr
      ⟨by decide, by decide, rfl, rfl, by decide,
       List.Chain.cons (by decide) (List.Chain.cons (by decide) List.Chain.nil), by decide⟩

/-- C5 counterexample. Starting from the empty store, the single operation
`add_relationship(relAB)` yields a state that stores the relationship while
its `entities` dict is still empty: the stored relationship's endpoints do
not exist as entities, so the claimed closure invariant fails. -/
theorem entity_closure_counterexample :
    ((KnowledgeGraph.empty.add_relationship relAB).relationships = [relAB]) ∧
    ((KnowledgeGraph.empty.add_relationship relAB).entities = []) ∧
    ¬ (∀ r ∈ (KnowledgeGraph.empty.add_relationship relAB).relationships,
        (∃ kv ∈ (KnowledgeGraph.empty.add_relationship relAB).entities, kv.1 = r.source) ∧
        (∃ kv ∈ (KnowledgeGraph.empty.add_relationship relAB).entities, kv.1 = r.target)) := by
  decide

/-- C5 amended. Every sequence of `add_entity` / `add_relationship`
operations preserves closure of the *node set of the underlying digraph*
under the stored edges: `add_relationship` auto-inserts missing endpoints as
graph nodes (networkx `add_edge` semantics), but never registers them in the
`entities` dict, so closure holds for graph nodes, not for entities. -/
theorem graph_ops_preserve_node_closure (kg : KnowledgeGraph) (ops : List GraphOp)
    (h : kg.graph.edgeClosed) : (applyOps kg ops).graph.edgeClosed := by
  induction ops generalizing kg with
  | nil => exact h
  | cons op rest ih =>
    rw [applyOps, List.foldl_cons]
    cases op with
    | addEntity e => exact ih _ (NxDiGraph.edgeClosed_add_node e.name h)
    | addRel r => exact ih _ (NxDiGraph.edgeClosed_add_edge _ h)

/-- Witness for the amended C5: the store obtained by adding `relAB` to the
empty store has an edge-closed node set. -/
theorem graph_ops_preserve_node_closure_witness :
    (applyOps KnowledgeGraph.empty [GraphOp.addRel relAB]).graph.edgeClosed :=
  graph_ops_preserve_node_closure KnowledgeGraph.empty [GraphOp.addRel relAB]
    (fun e he => absurd he (List.not_mem_nil e))

/-- C9 counterexample. On the empty store, `get_neighbors("不存在")` returns
the empty dict `{}`: it has no `"in"` or `"out"` key at all (both lookups
are `none`, not `some []`), so the result is not a dict with empty incoming
and outgoing lists. -/
theorem get_neighbors_unknown_counterexample :
    KnowledgeGraph.empty.get_neighbors "不存在" = [] ∧
    (KnowledgeGraph.empty.get_neighbors "不存在").lookup "in" = none ∧
    (KnowledgeGraph.empty.get_neighbors "不存在").lookup "out" = none ∧
    KnowledgeGraph.empty.get_neighbors "不存在" ≠ [("in", []), ("out", [])] := by
  decide

/-- C9 amended. For every entity name not present as a node of the graph,
`KnowledgeGraph.get_neighbors` returns the empty dict (no incoming/outgoing
keys) rather than raising an error. -/
theorem get_neighbors_unknown_empty (kg : KnowledgeGraph) (name : String)
    (h : name ∉ kg.graph.nodes) : kg.get_neighbors name = [] := by
  unfold KnowledgeGraph.get_neighbors
  rw [if_neg h]

/-- Witness for the amended C9 at a concrete unknown name on the empty
store. -/
theorem get_neighbors_unknown_empty_witness :
    KnowledgeGraph.empty.get_neighbors "缺失" = [] :=
  get_neighbors_unknown_empty KnowledgeGraph.empty "缺失" (by decide)

namespace VectorStore

/-- C3 counterexample. `load` on artifacts whose matrix row count (2) does
not match the chunk count (1) still returns `true` and installs the
inconsistent state, so `load` does not return true "only when … mutually
consistent". -/
theorem load_no_consistency_check_counterexample :
    (load ⟨[], none⟩ mismatchedDir).2 = true ∧
    (load ⟨[], none⟩ mismatchedDir).1.chunks.length = 1 ∧
    ((load ⟨[], none⟩ mismatchedDir).1.embeddings.map List.length) = some 2 := by
  decide

/-- C3 amended. `load` returns `true` iff both artifacts are present — no
mutual-consistency check is performed, so mismatched artifacts load silently
— and whenever it returns `false` the prior store state is left unchanged
(usable for rebuilding). -/
theorem load_true_iff_both_present (st : StoreState) (dir : Artifacts) :
    ((load st dir).2 = true ↔ dir.chunks_json.isSome ∧ dir.embeddings_npy.isSome) ∧
    ((load st dir).2 = false → (load st dir).1 = st) := by
  obtain ⟨cj, en⟩ := dir
  cases cj <;> cases en <;> simp [load]

/-- Witness for the amended C3: with the chunk artifact missing, `load`
keeps the prior state. -/
theorem load_true_iff_both_present_witness :
    (load ⟨[], none⟩ ⟨none, some [[1]]⟩).1 = ⟨[], none⟩ :=
  (load_true_iff_both_present ⟨[], none⟩ ⟨none, some [[1]]⟩).2 rfl

lemma strTakeRight_length (s : String) (n : Nat) (h : n ≤ s.length) :
    (strTakeRight s n).length = n := by
  show (s.data.drop (s.data.length - n)).length = n
  rw [List.length_drop]
  have hd : n ≤ s.data.length := h
  omega

/-- Factorisation of the paragraph fold: folding from a pre-existing chunk
list produces that list followed by exactly the chunk contents produced from
an empty list, and the resulting buffer is independent of the pre-existing
chunks. -/
lemma foldl_splitStep_factor (cs co : Nat) (ch : String) :
    ∀ (ps : List String) (pre : List TextChunk) (buf : String),
    ((ps.foldl (splitStep cs co ch) (pre, buf)).1).map chunkContent =
      pre.map chunkContent ++
      ((ps.foldl (splitStep cs co ch) (([] : List TextChunk), buf)).1).map chunkContent ∧
    (ps.foldl (splitStep cs co ch) (pre, buf)).2 =
      (ps.foldl (splitStep cs co ch) (([] : List TextChunk), buf)).2 := by
  intro ps
  induction ps with
  | nil =>
    intro pre buf
    exact ⟨by simp, rfl⟩
  | cons p ps ih =>
    intro pre buf
    rw [List.foldl_cons, List.foldl_cons]
    by_cases h1 : strTrim p = ""
    · have e1 : splitStep cs co ch (pre, buf) p = (pre, buf) := by
        unfold splitStep
        rw [if_pos h1]
      have e2 : splitStep cs co ch (([] : List TextChunk), buf) p =
          (([] : List TextChunk), buf) := by
        unfold splitStep
        rw [if_pos h1]
      rw [e1, e2]
      exact ih pre buf
    · by_cases h2 : buf.length + (strTrim p).length < cs
      · have e1 : splitStep cs co ch (pre, buf) p = (pre, buf ++ strTrim p ++ "\n\n") := by
          unfold splitStep
          rw [if_neg h1, if_pos h2]
        have e2 : splitStep cs co ch (([] : List TextChunk), buf) p =
            (([] : List TextChunk), buf ++ strTrim p ++ "\n\n") := by
          unfold splitStep
          rw [if_neg h1, if_pos h2]
        rw [e1, e2]
        exact ih pre _
      · have e1 : splitStep cs co ch (pre, buf) p =
            ((if buf = "" then pre else pre ++ [⟨strTrim buf, ch, pre.length⟩]),
             (if co > 0 ∧ buf.length > co then strTakeRight buf co ++ strTrim p ++ "\n\n"
              else strTrim p ++ "\n\n")) := by
          unfold splitStep
          rw [if_neg h1, if_neg h2]
        have e2 : splitStep cs co ch (([] : List TextChunk), buf) p =
            ((if buf = "" then ([] : List TextChunk) else [⟨strTrim buf, ch, 0⟩]),
             (if co > 0 ∧ buf.length > co then strTakeRight buf co ++ strTrim p ++ "\n\n"
              else strTrim p ++ "\n\n")) := by
          unfold splitStep
          rw [if_neg h1, if_neg h2]
          rfl
        rw [e1, e2]
        obtain ⟨ih1m, ih1b⟩ :=
          ih (if buf = "" then pre else pre ++ [⟨strTrim buf, ch, pre.length⟩])
            (if co > 0 ∧ buf.length > co then strTakeRight buf co ++ strTrim p ++ "\n\n"
             else strTrim p ++ "\n\n")
        obtain ⟨ih2m, ih2b⟩ :=
          ih (if buf = "" then ([] : List TextChunk) else [⟨strTrim buf, ch, 0⟩])
            (if co > 0 ∧ buf.length > co then strTakeRight buf co ++ strTrim p ++ "\n\n"
             else strTrim p ++ "\n\n")
        have key : ((if buf = "" then pre else pre ++ [⟨strTrim buf, ch, pre.length⟩]).map
              chunkContent)
            = pre.map chunkContent ++
              ((if buf = "" then ([] : List TextChunk) else [⟨strTrim buf, ch, 0⟩]).map
                chunkContent) := by
          by_cases h3 : buf = "" <;> simp [h3, chunkContent]
        constructor
        · rw [ih1m, ih2m, key, List.append_assoc]
        · rw [ih1b, ih2b]

/-- C6. Within one chapter section of `_split_text`: whenever the paragraph
step emits the buffer (non-blank stripped paragraph, buffer non-empty, and
the combined length reaches `chunk_size`), the buffer is appended as a chunk
and the new buffer is exactly the last `chunk_overlap` characters of the
old buffer (exactly that many) followed by the stripped paragraph when the
overlap is positive and the old buffer longer than it, and the stripped
paragraph alone otherwise; moreover each section is processed from an empty
buffer, so the chunk contents a section produces are independent of (and
appended after) everything produced before it — no overlap crosses a
chapter boundary. -/
theorem chunk_overlap_policy (cs co : Nat) (chapter : String)
    (st : List TextChunk × String) (para0 : String)
    (chunks : List TextChunk) (s : String)
    (hpara : strTrim para0 ≠ "") (hbuf : st.2 ≠ "")
    (hfit : ¬ (st.2.length + (strTrim para0).length < cs)) :
    ((splitStep cs co chapter st para0).1 =
      st.1 ++ [⟨strTrim st.2, chapter, st.1.length⟩]) ∧
    (co > 0 ∧ st.2.length > co →
      (splitStep cs co chapter st para0).2 =
        strTakeRight st.2 co ++ strTrim para0 ++ "\n\n" ∧
      (strTakeRight st.2 co).length = co) ∧
    (¬ (co > 0 ∧ st.2.length > co) →
      (splitStep cs co chapter st para0).2 = strTrim para0 ++ "\n\n") ∧
    ((processSection cs co chapter chunks s).map chunkContent =
      chunks.map chunkContent ++
      (processSection cs co chapter [] s).map chunkContent) := by
  refine ⟨?_, ?_, ?_, ?_⟩
  · unfold splitStep
    rw [if_neg hpara, if_neg hfit]
    dsimp only
    rw [if_neg hbuf]
  · intro hov
    unfold splitStep
    rw [if_neg hpara, if_neg hfit]
    dsimp only
    rw [if_pos hov]
    exact ⟨rfl, strTakeRight_length st.2 co (le_of_lt hov.2)⟩
  · intro hov
    unfold splitStep
    rw [if_neg hpara, if_neg hfit]
    dsimp only
    rw [if_neg hov]
  · unfold processSection
    by_cases hs : (strTrim s).length < 50
    · rw [if_pos hs, if_pos hs]
      simp
    · rw [if_neg hs, if_neg hs]
      obtain ⟨hm, hb⟩ :=
        foldl_splitStep_factor cs co chapter (strSplitOn (strTrim s) "\n\n") chunks ""
      by_cases hflush :
          strTrim ((strSplitOn (strTrim s) "\n\n").foldl (splitStep cs co chapter)
            ((chunks : List TextChunk), "")).2 = ""
      · rw [if_pos hflush, if_pos (by rw [← hb]; exact hflush)]
        exact hm
      · rw [if_neg hflush, if_neg (by rw [← hb]; exact hflush)]
        rw [List.map_append, List.map_append, hm, hb]
        simp [chunkContent, List.append_assoc]

/-- Witness for C6 at a concrete emission: buffer `"abcdefg"` (7 chars),
paragraph `"xyz"`, `chunk_size = 10`, `chunk_overlap = 3`: the new buffer is
the 3-character tail of the old buffer followed by the paragraph. -/
theorem chunk_overlap_policy_witness :
    (splitStep 10 3 "第一章" (([] : List TextChunk), "abcdefg") "xyz").2 =
      strTakeRight "abcdefg" 3 ++ strTrim "xyz" ++ "\n\n" ∧
    (strTakeRight "abcdefg" 3).length = 3 :=
  (chunk_overlap_policy 10 3 "第一章" (([] : List TextChunk), "abcdefg") "xyz" [] ""
    (by decide) (by decide) (by decide)).2.1 (by decide)

end VectorStore

namespace GraphQueryEngine

lemma find?_eq_head?_filter {α : Type} (p : α → Bool) (l : List α) :
    l.find? p = (l.filter p).head? := by
  induction l with
  | nil => rfl
  | cons a l ih =>
    by_cases h : p a
    · rw [List.find?_cons_of_pos _ h, List.filter_cons_of_pos h, List.head?_cons]
    · rw [List.find?_cons_of_neg _ (by simpa using h),
        List.filter_cons_of_neg (by simpa using h), ih]

/-- C7. The entity matcher agrees, on every registry state and candidate,
with the specification's contract (exact match first, then first
registration-order case-insensitive substring match in either direction,
else none); in particular, on the registry `{安全边际, 能力圈}` it maps
`能力` to `能力圈` and `不存在` to none. -/
theorem fuzzy_match_matches_spec (kg : KnowledgeGraph) (query : String) :
    fuzzy_match_entity kg query = matchSpec (kg.entities.map Prod.fst) query ∧
    fuzzy_match_entity kgMatcher "能力" = some "能力圈" ∧
    fuzzy_match_entity kgMatcher "不存在" = none := by
  refine ⟨?_, by decide, by decide⟩
  unfold fuzzy_match_entity matchSpec
  by_cases h : query ∈ kg.entities.map Prod.fst
  · rw [if_pos h, if_pos h]
  · rw [if_neg h, if_neg h, find?_eq_head?_filter]

end GraphQueryEngine

namespace HybridQueryEngine

/-- C8 counterexample. With a history of three user turns `a`, `b`, `c` and
question `q`, the code builds `"a b c q"` — the user turns of the last four
*messages* — while the claim's reading (at most the last 2 user turns)
yields `"b c q"`. -/
theorem build_search_query_counterexample :
    build_search_query "q" (some hist3) = "a b c q" ∧
    build_search_query_claimed "q" (some hist3) = "b c q" ∧
    build_search_query "q" (some hist3) ≠ build_search_query_claimed "q" (some hist3) := by
  decide

/-- C8 amended. For every question and history, the effective search query
is the concatenation of the user-turn contents among the last 4 messages of
the history (chronological order), each truncated to a 100-character prefix,
joined by single spaces and followed by the current question; it is the
question unchanged when the history is empty or absent, or when the last 4
messages contain no user turn. -/
theorem build_search_query_amended_eq (question : String) (history : Option (List Msg)) :
    build_search_query question history = build_search_query_amended question history := by
  cases history with
  | none => rfl
  | some h =>
    have hcollect : ∀ (l : List Msg),
        l.foldr (fun m acc => if m.role = "user" then strTake m.content 100 :: acc else acc)
          [] =
        (l.filter (fun m => m.role == "user")).map (fun m => strTake m.content 100) := by
      intro l
      induction l with
      | nil => rfl
      | cons m l ih =>
        by_cases hm : m.role = "user"
        · rw [List.foldr_cons, ih, if_pos hm, List.filter_cons_of_pos (by simpa using hm),
            List.map_cons]
        · rw [List.foldr_cons, ih, if_neg hm, List.filter_cons_of_neg (by simpa using hm)]
    simp only [build_search_query, build_search_query_amended, hcollect]
    by_cases hE : h.isEmpty
    · have hnil : h = [] := by
        cases h with
        | nil => rfl
        | cons a l => simp [List.isEmpty] at hE
      subst hnil
      rfl
    · rw [if_neg (by simpa using hE)]
      cases hL : ((h.drop (h.length - 4)).filter (fun m => m.role == "user")).map
          (fun m => strTake m.content 100) with
      | nil => rfl
      | cons x xs => rfl

/-- C10. `query` never propagates a generation-backend failure: it is a
total function into result records whose `citations` and `graph_entities`
fields are computed from the retrieval results and the question alone
(identically for every backend), and with a backend that raises
(`Except.error e` on every prompt) the `answer` field is the rendered
error-message string. -/
theorem query_survives_llm_failure (chunks : List TextChunk) (scoresOf : String → List ℚ)
    (graph : Option KnowledgeGraph) (llm : String → Except String String)
    (question : String) (top_k : Nat) (history : Option (List Msg)) (e : String) :
    ((query chunks scoresOf graph llm question top_k history).citations =
      extract_citations (VectorStore.search chunks
        (scoresOf (build_search_query question history)) top_k)) ∧
    ((query chunks scoresOf graph llm question top_k history).graph_entities =
      get_matched_entities graph question) ∧
    ((query chunks scoresOf graph (fun _ => Except.error e) question top_k history).answer =
      "生成回答时出错: " ++ e) :=
  ⟨rfl, rfl, rfl⟩

end HybridQueryEngine

end CharlieMungerBrain
